import Mathlib

/-
Verification of the gwendr SDF raymarcher core.

Shallow embedding of the Rust sources (src/linear.rs, src/mat.rs, src/sdf.rs,
src/scene.rs) over the real numbers: f64 values are modelled as elements of
the real field, so floating-point rounding is abstracted away while every
arithmetic expression is translated operation by operation from the source.
Rust trait objects implementing the SDF trait are modelled as a record of the
four dynamically dispatched methods (distance, epsilon, material, normal);
each constructor below fills the normal field with exactly the function the
corresponding Rust impl block dispatches to (the trait default central
difference gradient unless the impl overrides normal).
-/

namespace Gwendr

/-- Vec3 from src/linear.rs: a triple of doubles, modelled over the reals. -/
@[ext]
structure Vec3 where
  x : ℝ
  y : ℝ
  z : ℝ

def Vec3.zero : Vec3 := ⟨0, 0, 0⟩

def Vec3.up : Vec3 := ⟨0, 1, 0⟩

def Vec3.down : Vec3 := ⟨0, -1, 0⟩

def Vec3.left : Vec3 := ⟨-1, 0, 0⟩

def Vec3.right : Vec3 := ⟨1, 0, 0⟩

def Vec3.forward : Vec3 := ⟨0, 0, 1⟩

def Vec3.backward : Vec3 := ⟨0, 0, -1⟩

/-- Vec3::cross from src/linear.rs. -/
def Vec3.cross (a b : Vec3) : Vec3 :=
  ⟨a.y * b.z - a.z * b.y, a.z * b.x - a.x * b.z, a.x * b.y - a.y * b.x⟩

/-- Vec3::add from src/linear.rs: self + scale * other (scaled add). -/
def Vec3.add (v : Vec3) (scale : ℝ) (other : Vec3) : Vec3 :=
  ⟨v.x + scale * other.x, v.y + scale * other.y, v.z + scale * other.z⟩

/-- The plain componentwise sum, the Add operator impl from src/linear.rs. -/
def Vec3.addv (v other : Vec3) : Vec3 :=
  ⟨v.x + other.x, v.y + other.y, v.z + other.z⟩

/-- The componentwise difference, the Sub operator impl from src/linear.rs. -/
def Vec3.sub (v other : Vec3) : Vec3 :=
  ⟨v.x - other.x, v.y - other.y, v.z - other.z⟩

/-- Vec3::scale from src/linear.rs. -/
def Vec3.scale (v : Vec3) (s : ℝ) : Vec3 :=
  ⟨v.x * s, v.y * s, v.z * s⟩

/-- Vec3::dot from src/linear.rs. -/
def Vec3.dot (v other : Vec3) : ℝ :=
  v.x * other.x + v.y * other.y + v.z * other.z

/-- Vec3::norm2 from src/linear.rs. -/
def Vec3.norm2 (v : Vec3) : ℝ := v.dot v

/-- Vec3::norm from src/linear.rs. -/
noncomputable def Vec3.norm (v : Vec3) : ℝ := Real.sqrt v.norm2

/-- Vec3::normalize from src/linear.rs: the zero vector is returned unchanged,
otherwise each component is divided by the magnitude. -/
noncomputable def Vec3.normalize (v : Vec3) : Vec3 :=
  if v.norm2 = 0 then v
  else ⟨v.x / Real.sqrt v.norm2, v.y / Real.sqrt v.norm2, v.z / Real.sqrt v.norm2⟩

/-- Vec3::dist2 from src/linear.rs. -/
def Vec3.dist2 (v other : Vec3) : ℝ :=
  (other.x - v.x) * (other.x - v.x) + (other.y - v.y) * (other.y - v.y)
    + (other.z - v.z) * (other.z - v.z)

/-- Vec3::dist from src/linear.rs. -/
noncomputable def Vec3.dist (v other : Vec3) : ℝ := Real.sqrt (v.dist2 other)

/-- Modelled from the spec: Vec3::rotate is called by the source (src/sdf.rs)
but its definition is not among the provided files; the spec describes it as
rotation of the vector around an axis by an angle under the right-hand rule,
via Rodrigues formula with the axis normalized. -/
noncomputable def Vec3.rotate (v : Vec3) (angle : ℝ) (axis : Vec3) : Vec3 :=
  ((v.scale (Real.cos angle)).add (Real.sin angle) (Vec3.cross axis.normalize v)).add
    (axis.normalize.dot v * (1 - Real.cos angle)) axis.normalize

/-- Ray from src/linear.rs. -/
structure Ray where
  origin : Vec3
  direction : Vec3

/-- Color from src/mat.rs: a linear RGB triple. -/
structure Color where
  r : ℝ
  g : ℝ
  b : ℝ

def Color.black : Color := ⟨0, 0, 0⟩

def Color.white : Color := ⟨1, 1, 1⟩

/-- Material from src/mat.rs. -/
structure Material where
  ambient : Color
  diffuse : Color
  specular : Color
  phong : ℝ
  reflectivity : ℝ

/-- Material::new from src/mat.rs: the default material. -/
def Material.new : Material := ⟨Color.black, Color.white, Color.black, 1, 0⟩

/-- Color::from_irgb from src/mat.rs. -/
noncomputable def Color.from_irgb (r g b : ℕ) : Color :=
  ⟨(r : ℝ) / 255, (g : ℝ) / 255, (b : ℝ) / 255⟩

/-- convert_to_255 from src/mat.rs: clamp to the unit interval, multiply by
255, and truncate to an unsigned integer (the Rust cast truncates toward zero;
the clamped product is nonnegative, so truncation is the floor). -/
noncomputable def convert_to_255 (f : ℝ) : ℕ :=
  Nat.floor (min (max f 0) 1 * 255)

/-- The two hexadecimal digits the format directive 02x prints for a byte:
the high nibble and the low nibble. -/
def toHexByte (n : ℕ) : ℕ × ℕ := (n / 16, n % 16)

/-- The value usize::from_str_radix recovers from two base-16 digits. -/
def fromHexByte (p : ℕ × ℕ) : ℕ := p.1 * 16 + p.2

/-- Color::as_hexstring from src/mat.rs, with the rrggbb string modelled as
its six hexadecimal digits (two per channel): formatting a byte with 02x and
parsing the two digits back with from_str_radix are mutually inverse, so the
digit pairs carry exactly the information content of the string. -/
noncomputable def Color.as_hexstring (c : Color) : (ℕ × ℕ) × (ℕ × ℕ) × (ℕ × ℕ) :=
  (toHexByte (convert_to_255 c.r), toHexByte (convert_to_255 c.g),
    toHexByte (convert_to_255 c.b))

/-- Color::from_hexstring from src/mat.rs, on the digit model of the string. -/
noncomputable def Color.from_hexstring (s : (ℕ × ℕ) × (ℕ × ℕ) × (ℕ × ℕ)) : Color :=
  Color.from_irgb (fromHexByte s.1) (fromHexByte s.2.1) (fromHexByte s.2.2)

/-- MAX_FLOAT from src/sdf.rs: (1u64 << 53) as f64. -/
def MAX_FLOAT : ℝ := 2 ^ (53 : ℕ)

/-- A value implementing the SDF trait of src/sdf.rs, modelled as the record
of its four dynamically dispatched methods. -/
structure SDFData where
  distance : Vec3 → ℝ
  epsilon : ℝ
  material : Vec3 → Option Material
  normal : Vec3 → Vec3

/-- The default SDF::normal method from src/sdf.rs: the central difference of
the distance field at offsets of epsilon along each coordinate axis,
normalized (the source does not divide by the step before normalizing). -/
noncomputable def defaultNormal (dist : Vec3 → ℝ) (epsilon : ℝ) (point : Vec3) : Vec3 :=
  Vec3.normalize
    ⟨dist ((Vec3.right.scale epsilon).add 1 point)
        - dist ((Vec3.left.scale epsilon).add 1 point),
      dist ((Vec3.up.scale epsilon).add 1 point)
        - dist ((Vec3.down.scale epsilon).add 1 point),
      dist ((Vec3.forward.scale epsilon).add 1 point)
        - dist ((Vec3.backward.scale epsilon).add 1 point)⟩

/-- An SDF impl that overrides neither material nor normal: material is the
trait default (None) and normal is the trait default central difference. -/
noncomputable def mkSDF (dist : Vec3 → ℝ) (eps : ℝ) : SDFData :=
  ⟨dist, eps, fun _ => none, defaultNormal dist eps⟩

/-- impl SDF for Sphere from src/sdf.rs. -/
noncomputable def mkSphere (radius : ℝ) : SDFData :=
  mkSDF (fun p => p.norm - radius) (radius / 10000)

/-- impl SDF for Plane from src/sdf.rs. -/
noncomputable def mkPlane (n : Vec3) : SDFData :=
  mkSDF (fun p => n.dot p) (1 / 1000)

/-- impl SDF for EmptySDF from src/sdf.rs. -/
noncomputable def mkEmpty : SDFData :=
  mkSDF (fun _ => MAX_FLOAT) 1

/-- impl SDF for UnionSDF from src/sdf.rs: min distance, min epsilon, the
material of the strictly closer child (ties go to b), and the normal left to
the trait default computed from the combined distance and epsilon. -/
noncomputable def mkUnion (a b : SDFData) : SDFData :=
  { distance := fun p => min (a.distance p) (b.distance p)
    epsilon := min a.epsilon b.epsilon
    material := fun p => if a.distance p < b.distance p then a.material p else b.material p
    normal := defaultNormal (fun p => min (a.distance p) (b.distance p))
      (min a.epsilon b.epsilon) }

/-- impl SDF for IntersectionSDF from src/sdf.rs: max distance, min epsilon,
the material of the strictly closer child (ties go to b), default normal. -/
noncomputable def mkIntersection (a b : SDFData) : SDFData :=
  { distance := fun p => max (a.distance p) (b.distance p)
    epsilon := min a.epsilon b.epsilon
    material := fun p => if a.distance p < b.distance p then a.material p else b.material p
    normal := defaultNormal (fun p => max (a.distance p) (b.distance p))
      (min a.epsilon b.epsilon) }

/-- impl SDF for DifferenceSDF from src/sdf.rs: max of the first distance and
the negated second distance, min epsilon, the material of a, default normal. -/
noncomputable def mkDifference (a b : SDFData) : SDFData :=
  { distance := fun p => max (a.distance p) (-(b.distance p))
    epsilon := min a.epsilon b.epsilon
    material := fun p => a.material p
    normal := defaultNormal (fun p => max (a.distance p) (-(b.distance p)))
      (min a.epsilon b.epsilon) }

/-- impl SDF for NegationSDF from src/sdf.rs: negated distance, inherited
epsilon, negated child normal; material is not overridden, so it is the trait
default None. -/
noncomputable def mkNegation (a : SDFData) : SDFData :=
  { distance := fun p => -(a.distance p)
    epsilon := a.epsilon
    material := fun _ => none
    normal := fun p => (a.normal p).scale (-1) }

/-- impl SDF for MatSDF from src/sdf.rs: delegated distance and epsilon, the
attached material, and the normal left to the trait default (which dispatches
to the delegated distance and epsilon). -/
noncomputable def mkShaded (a : SDFData) (mat : Material) : SDFData :=
  { distance := a.distance
    epsilon := a.epsilon
    material := fun _ => some mat
    normal := defaultNormal a.distance a.epsilon }

/-- SmoothUnionType from src/sdf.rs. -/
inductive SmoothUnionType where
  | exp (k : ℝ)
  | poly (k : ℝ)
  | pow (k : ℝ)

/-- SmoothUnionType::smooth from src/sdf.rs. In the Poly branch the source
shadows the enum parameter with a local binding of 0.1 before using it, so
the supplied parameter never reaches the formula. -/
noncomputable def SmoothUnionType.smooth : SmoothUnionType → ℝ → ℝ → ℝ
  | SmoothUnionType.exp k, a, b =>
      -(Real.logb 2 (Real.rpow 2 (-k * a) + Real.rpow 2 (-k * b)) / k)
  | SmoothUnionType.poly _, a, b =>
      let k : ℝ := 0.1
      let h := max (k - |a - b|) 0 / k
      min a b - h * h * k * (1 / 4)
  | SmoothUnionType.pow k, a, b =>
      Real.rpow ((Real.rpow a k * Real.rpow b k) / (Real.rpow a k + Real.rpow b k)) (1 / k)

/-- The Poly blend as the spec writes it, honoring the supplied parameter:
h = max(k - |a - b|, 0)/k and the blended distance min(a,b) - h*h*k/4. -/
noncomputable def polySmoothSpec (k a b : ℝ) : ℝ :=
  min a b - (max (k - |a - b|) 0 / k) * (max (k - |a - b|) 0 / k) * k * (1 / 4)

/-- PolyFace from src/sdf.rs. -/
structure PolyFace where
  normal : Vec3
  centroid : Vec3
  vertices : List Vec3
  epsilon : ℝ

/-- PolyFace::new from src/sdf.rs. List indexing is total here via a zero
default; every index taken is within bounds, as in the source. -/
noncomputable def PolyFace.new (vertices : List Vec3) : PolyFace :=
  let cn : Vec3 × Vec3 :=
    if 3 ≤ vertices.length then
      let centroid := (vertices.foldl Vec3.addv Vec3.zero).scale (1 / (vertices.length : ℝ))
      let a := (vertices.getD 0 Vec3.zero).sub centroid
      let b := (vertices.getD 1 Vec3.zero).sub centroid
      (centroid, (Vec3.cross b a).normalize)
    else (Vec3.zero, Vec3.zero)
  let eps : ℝ :=
    (List.range vertices.length).foldl
      (fun eps i =>
        min eps ((vertices.getD i Vec3.zero).dist
          (vertices.getD ((i + 1) % vertices.length) Vec3.zero) / 1000))
      1
  { normal := cn.2, centroid := cn.1, vertices := vertices, epsilon := eps }

/-- The distance method of impl SDF for PolyFace from src/sdf.rs. -/
noncomputable def PolyFace.distance (pf : PolyFace) (point : Vec3) : ℝ :=
  if pf.vertices.length < 3 then MAX_FLOAT
  else
    let thickness : ℝ := 0.1
    let sd0 := pf.normal.dot (point.sub pf.centroid)
    let sd1 := max sd0 (-(pf.normal.dot (point.sub pf.centroid)) - thickness)
    (List.range pf.vertices.length).foldl
      (fun sd i =>
        let a := pf.vertices.getD i Vec3.zero
        let b := pf.vertices.getD ((i + 1) % pf.vertices.length) Vec3.zero
        let edge_normal := ((b.sub a).rotate (Real.pi / 2) pf.normal).normalize
        max sd ((point.sub a).dot edge_normal - pf.epsilon))
      sd1

/-- impl SDF for PolyFace from src/sdf.rs: the distance above, the stored
epsilon, the trait default material, and the overridden normal returning the
stored face normal. -/
noncomputable def PolyFace.toSDF (pf : PolyFace) : SDFData :=
  ⟨pf.distance, pf.epsilon, fun _ => none, fun _ => pf.normal⟩

/-- RayHit from src/sdf.rs. -/
structure RayHit where
  ray : Ray
  point : Vec3
  distance : ℝ
  normal : Vec3
  material : Material

/-- The three ways the sphere-tracing loop can leave a state: the timeout
constructor is a fuel artifact of the embedding and never arises for the fuel
chosen below when the preconditions of the spec hold (see
marchLoop_no_timeout); the Rust loop itself has no iteration cap. -/
inductive MarchResult where
  | timeout : MarchResult
  | miss : MarchResult
  | hit : Vec3 → MarchResult

/-- The while loop of SDF::raymarch from src/sdf.rs. The Rust loop variable
distance always equals the distance field at the current point when the loop
condition is tested, so the state is just the current point: step by the
current distance along the normalized direction, miss once the new point is
at or past the far plane, hit once the distance is at most epsilon. -/
noncomputable def marchLoop (sdf : SDFData) (origin dhat : Vec3) (farPlane : ℝ) :
    ℕ → Vec3 → MarchResult
  | 0, _ => MarchResult.timeout
  | n + 1, point =>
      if sdf.distance point > sdf.epsilon then
        if (point.add (sdf.distance point) dhat).dist2 origin ≥ farPlane * farPlane then
          MarchResult.miss
        else
          marchLoop sdf origin dhat farPlane n ((point.add (sdf.distance point) dhat))
      else MarchResult.hit point

/-- Fuel that always suffices for the loop when epsilon is positive, the
direction is nonzero and the far plane is positive: every iteration advances
the point along the ray by more than epsilon, so after at most
ceil(farPlane/epsilon) steps the far-plane test fires. -/
noncomputable def marchFuel (sdf : SDFData) (farPlane : ℝ) : ℕ :=
  Nat.ceil (farPlane / sdf.epsilon) + 1

/-- SDF::raymarch from src/sdf.rs: run the loop from the ray origin with the
normalized direction; on a hit, package the hit point, its residual distance,
the dispatched normal, and the dispatched material defaulted to
Material::new. -/
noncomputable def SDFData.raymarch (sdf : SDFData) (ray : Ray) (farPlane : ℝ) :
    Option RayHit :=
  match marchLoop sdf ray.origin ray.direction.normalize farPlane
      (marchFuel sdf farPlane) ray.origin with
  | MarchResult.hit point =>
      some { ray := ray, point := point, distance := sdf.distance point,
             normal := sdf.normal point,
             material := (sdf.material point).getD Material.new }
  | _ => none

/-- Basis from src/linear.rs. -/
structure Basis where
  i : Vec3
  j : Vec3
  k : Vec3

/-- Frame from src/linear.rs. -/
structure Frame where
  origin : Vec3
  basis : Basis

/-- Basis::project from src/linear.rs. -/
def Basis.project (b : Basis) (lp : Vec3) : Vec3 :=
  ((Vec3.zero.add lp.x b.i).add lp.y b.j).add lp.z b.k

/-- Frame::project_vec from src/linear.rs. -/
def Frame.project_vec (f : Frame) (lp : Vec3) : Vec3 := f.basis.project lp

/-- Frame::project_point from src/linear.rs. -/
def Frame.project_point (f : Frame) (lp : Vec3) : Vec3 :=
  (f.basis.project lp).add 1 f.origin

/-- OrthoView from src/scene.rs. -/
structure OrthoView where
  frame : Frame

/-- PerspView from src/scene.rs. -/
structure PerspView where
  eye_frame : Frame
  near : ℝ
  fov_degrees : ℝ

/-- ViewTransform from src/scene.rs. -/
inductive ViewTransform where
  | ortho (v : OrthoView)
  | persp (v : PerspView)

/-- ViewTransform::project from src/scene.rs. -/
noncomputable def ViewTransform.project : ViewTransform → Vec3 → Ray
  | ViewTransform.ortho o, lp =>
      Ray.mk (o.frame.project_point lp) (o.frame.project_vec Vec3.forward)
  | ViewTransform.persp pv, lp =>
      let fov := pv.fov_degrees * Real.pi / 180
      let near_plane_width := 2 * Real.tan (fov / 2) * pv.near
      let near_plane_height := 2 * Real.tan (fov / 2) * pv.near
      let near_plane : Frame :=
        ⟨pv.eye_frame.project_point ⟨0, 0, pv.near⟩,
          ⟨pv.eye_frame.project_vec ⟨near_plane_width / 2, 0, 0⟩,
            pv.eye_frame.project_vec ⟨0, near_plane_height / 2, 0⟩,
            pv.eye_frame.project_vec Vec3.forward⟩⟩
      Ray.mk pv.eye_frame.origin
        ((near_plane.project_point lp).sub pv.eye_frame.origin).normalize

/-- The near-plane frame exactly as the spec sentence for the perspective
view describes it: centered at eye_frame.project_point(0,0,near), half-axes
of length tan(fov/2) times near along eye-space x and y, and eye-space z as
the third axis. -/
noncomputable def specNearPlaneFrame (pv : PerspView) : Frame :=
  ⟨pv.eye_frame.project_point ⟨0, 0, pv.near⟩,
    ⟨pv.eye_frame.project_vec
        ⟨Real.tan (pv.fov_degrees * Real.pi / 180 / 2) * pv.near, 0, 0⟩,
      pv.eye_frame.project_vec
        ⟨0, Real.tan (pv.fov_degrees * Real.pi / 180 / 2) * pv.near, 0⟩,
      pv.eye_frame.project_vec Vec3.forward⟩⟩

lemma fromHexByte_toHexByte (n : ℕ) : fromHexByte (toHexByte n) = n := by
  simp only [fromHexByte, toHexByte]
  omega

lemma channel_roundtrip (x : ℝ) (h0 : 0 ≤ x) (h1 : x ≤ 1) :
    |x - (fromHexByte (toHexByte (convert_to_255 x)) : ℝ) / 255| < 1 / 255 := by
  rw [fromHexByte_toHexByte]
  unfold convert_to_255
  rw [max_eq_left h0, min_eq_left h1]
  have hnn : 0 ≤ x * 255 := by positivity
  have hfl : (Nat.floor (x * 255) : ℝ) ≤ x * 255 := Nat.floor_le hnn
  have hlt : x * 255 < Nat.floor (x * 255) + 1 := Nat.lt_floor_add_one _
  rw [abs_lt]
  exact ⟨by linarith, by linarith⟩

/-- C6: for all SDFs A and B and every point p, the distance of
Difference(A, B) at p equals the distance of Intersection(A, Negation(B))
at p. -/
theorem difference_eq_intersection_negation (a b : SDFData) (p : Vec3) :
    (mkDifference a b).distance p = (mkIntersection a (mkNegation b)).distance p := rfl

/-- C4: the Poly blend of SmoothUnionType::smooth ignores its parameter. At
a = b = 0 with supplied parameter k = 2/5 the source computes -1/40, the
value of the formula with the hard-coded k = 0.1, while the spec formula
honoring the parameter gives -1/10. -/
theorem poly_smooth_hardcodes_k :
    SmoothUnionType.smooth (SmoothUnionType.poly (2 / 5)) 0 0 = -(1 / 40) ∧
      polySmoothSpec (2 / 5) 0 0 = -(1 / 10) := by
  constructor
  · simp only [SmoothUnionType.smooth]
    norm_num
  · unfold polySmoothSpec
    norm_num

/-- C5: a PolyFace constructed from fewer than 3 vertices has distance
MAX_FLOAT (the 2^53 sentinel standing for infinity) at every point, so the
shape renders as empty; construction and evaluation are total functions in
this embedding, matching the panic-free source paths. -/
theorem polyface_degenerate_distance (vs : List Vec3) (h : vs.length < 3) (p : Vec3) :
    (PolyFace.new vs).distance p = MAX_FLOAT := by
  have hv : (PolyFace.new vs).vertices = vs := rfl
  unfold PolyFace.distance
  rw [hv, if_pos h]

/-- Witness for C5 at the empty vertex list and the origin. -/
theorem polyface_degenerate_distance_witness :
    ([] : List Vec3).length < 3 ∧ (PolyFace.new []).distance Vec3.zero = MAX_FLOAT :=
  ⟨by decide, polyface_degenerate_distance [] (by decide) Vec3.zero⟩

/-- C10: at a point where the child distances tie, both Union and
Intersection select the material of the second child b, because the
material-selection comparison is strict. -/
theorem material_tie_goes_to_second_child (a b : SDFData) (p : Vec3)
    (h : a.distance p = b.distance p) :
    (mkUnion a b).material p = b.material p ∧
      (mkIntersection a b).material p = b.material p := by
  constructor
  · show (if a.distance p < b.distance p then a.material p else b.material p)
        = b.material p
    rw [if_neg (by rw [h]; exact lt_irrefl _)]
  · show (if a.distance p < b.distance p then a.material p else b.material p)
        = b.material p
    rw [if_neg (by rw [h]; exact lt_irrefl _)]

noncomputable def wMat : Material := ⟨Color.white, Color.white, Color.black, 2, 1 / 2⟩

noncomputable def wTieA : SDFData := mkPlane ⟨1, 0, 0⟩

noncomputable def wTieB : SDFData := mkShaded (mkPlane ⟨1, 0, 0⟩) wMat

/-- Witness for C10: two coincident planes, the second shaded, tie at the
origin and both combinators return the material of the second. -/
theorem material_tie_goes_to_second_child_witness :
    wTieA.distance Vec3.zero = wTieB.distance Vec3.zero ∧
      (mkUnion wTieA wTieB).material Vec3.zero = some wMat ∧
      (mkIntersection wTieA wTieB).material Vec3.zero = some wMat :=
  ⟨rfl, (material_tie_goes_to_second_child wTieA wTieB Vec3.zero rfl).1,
    (material_tie_goes_to_second_child wTieA wTieB Vec3.zero rfl).2⟩

/-- C7: for a color with all channels in the unit interval, serializing to
the hex form (clamp, multiply by 255, truncate, two hex digits per channel)
and parsing back (digits to integer, divide by 255) moves each channel by
strictly less than 1/255. -/
theorem color_roundtrip (c : Color)
    (h0r : 0 ≤ c.r) (h1r : c.r ≤ 1) (h0g : 0 ≤ c.g) (h1g : c.g ≤ 1)
    (h0b : 0 ≤ c.b) (h1b : c.b ≤ 1) :
    |c.r - (Color.from_hexstring (Color.as_hexstring c)).r| < 1 / 255 ∧
      |c.g - (Color.from_hexstring (Color.as_hexstring c)).g| < 1 / 255 ∧
      |c.b - (Color.from_hexstring (Color.as_hexstring c)).b| < 1 / 255 :=
  ⟨channel_roundtrip c.r h0r h1r, channel_roundtrip c.g h0g h1g,
    channel_roundtrip c.b h0b h1b⟩

/-- Witness for C7 at the color (1/2, 0, 1). -/
theorem color_roundtrip_witness :
    |(⟨1 / 2, 0, 1⟩ : Color).r
        - (Color.from_hexstring (Color.as_hexstring ⟨1 / 2, 0, 1⟩)).r| < 1 / 255 ∧
      |(⟨1 / 2, 0, 1⟩ : Color).g
        - (Color.from_hexstring (Color.as_hexstring ⟨1 / 2, 0, 1⟩)).g| < 1 / 255 ∧
      |(⟨1 / 2, 0, 1⟩ : Color).b
        - (Color.from_hexstring (Color.as_hexstring ⟨1 / 2, 0, 1⟩)).b| < 1 / 255 :=
  color_roundtrip ⟨1 / 2, 0, 1⟩ (by norm_num) (by norm_num) (by norm_num)
    (by norm_num) (by norm_num) (by norm_num)

lemma Vec3.norm2_nonneg (v : Vec3) : 0 ≤ v.norm2 := by
  simp only [Vec3.norm2, Vec3.dot]
  linarith [mul_self_nonneg v.x, mul_self_nonneg v.y, mul_self_nonneg v.z]

lemma Vec3.norm2_ne_zero (v : Vec3) (hv : v ≠ Vec3.zero) : v.norm2 ≠ 0 := by
  intro h
  apply hv
  simp only [Vec3.norm2, Vec3.dot] at h
  have hx : v.x * v.x ≤ 0 := by linarith [mul_self_nonneg v.y, mul_self_nonneg v.z]
  have hy : v.y * v.y ≤ 0 := by linarith [mul_self_nonneg v.x, mul_self_nonneg v.z]
  have hz : v.z * v.z ≤ 0 := by linarith [mul_self_nonneg v.x, mul_self_nonneg v.y]
  ext
  · exact mul_self_eq_zero.mp (le_antisymm hx (mul_self_nonneg v.x))
  · exact mul_self_eq_zero.mp (le_antisymm hy (mul_self_nonneg v.y))
  · exact mul_self_eq_zero.mp (le_antisymm hz (mul_self_nonneg v.z))

lemma Vec3.norm2_normalize (v : Vec3) (hv : v.norm2 ≠ 0) : v.normalize.norm2 = 1 := by
  have hnn : 0 ≤ v.norm2 := v.norm2_nonneg
  have hpos : 0 < v.norm2 := lt_of_le_of_ne hnn (Ne.symm hv)
  have hs : 0 < Real.sqrt v.norm2 := Real.sqrt_pos.mpr hpos
  have hss : Real.sqrt v.norm2 * Real.sqrt v.norm2 = v.norm2 := Real.mul_self_sqrt hnn
  rw [Vec3.normalize, if_neg hv]
  show (v.x / Real.sqrt v.norm2) * (v.x / Real.sqrt v.norm2)
      + (v.y / Real.sqrt v.norm2) * (v.y / Real.sqrt v.norm2)
      + (v.z / Real.sqrt v.norm2) * (v.z / Real.sqrt v.norm2) = 1
  field_simp
  simp only [Vec3.norm2, Vec3.dot] at hss ⊢

lemma dist2_add_scaled (origin dhat : Vec3) (s : ℝ) (hunit : dhat.norm2 = 1) :
    (origin.add s dhat).dist2 origin = s * s := by
  simp only [Vec3.norm2, Vec3.dot] at hunit
  simp only [Vec3.dist2, Vec3.add]
  linear_combination (s * s) * hunit

lemma add_add_scaled (origin dhat : Vec3) (t d : ℝ) :
    (origin.add t dhat).add d dhat = origin.add (t + d) dhat := by
  simp only [Vec3.add, Vec3.mk.injEq]
  exact ⟨by ring, by ring, by ring⟩

lemma marchLoop_hit_le_epsilon (sdf : SDFData) (origin dhat : Vec3) (farPlane : ℝ) :
    ∀ (n : ℕ) (p q : Vec3),
      marchLoop sdf origin dhat farPlane n p = MarchResult.hit q →
        sdf.distance q ≤ sdf.epsilon := by
  intro n
  induction n with
  | zero =>
      intro p q h
      simp only [marchLoop] at h
      exact MarchResult.noConfusion h
  | succ n ih =>
      intro p q h
      simp only [marchLoop] at h
      by_cases hgt : sdf.distance p > sdf.epsilon
      · rw [if_pos hgt] at h
        by_cases hfar :
            (p.add (sdf.distance p) dhat).dist2 origin ≥ farPlane * farPlane
        · rw [if_pos hfar] at h
          exact MarchResult.noConfusion h
        · rw [if_neg hfar] at h
          exact ih _ _ h
      · rw [if_neg hgt] at h
        cases h
        exact le_of_not_lt hgt

lemma marchLoop_hit_dist2 (sdf : SDFData) (origin dhat : Vec3) (farPlane : ℝ) :
    ∀ (n : ℕ) (p q : Vec3), p.dist2 origin < farPlane * farPlane →
      marchLoop sdf origin dhat farPlane n p = MarchResult.hit q →
        q.dist2 origin < farPlane * farPlane := by
  intro n
  induction n with
  | zero =>
      intro p q hp h
      simp only [marchLoop] at h
      exact MarchResult.noConfusion h
  | succ n ih =>
      intro p q hp h
      simp only [marchLoop] at h
      by_cases hgt : sdf.distance p > sdf.epsilon
      · rw [if_pos hgt] at h
        by_cases hfar :
            (p.add (sdf.distance p) dhat).dist2 origin ≥ farPlane * farPlane
        · rw [if_pos hfar] at h
          exact MarchResult.noConfusion h
        · rw [if_neg hfar] at h
          exact ih _ _ (lt_of_not_ge hfar) h
      · rw [if_neg hgt] at h
        cases h
        exact hp

lemma marchLoop_no_timeout (sdf : SDFData) (origin dhat : Vec3) (farPlane : ℝ)
    (hε : 0 < sdf.epsilon) (hunit : dhat.norm2 = 1) :
    ∀ (n : ℕ) (t : ℝ), 0 ≤ t → t < farPlane → farPlane < t + n * sdf.epsilon →
      marchLoop sdf origin dhat farPlane n (origin.add t dhat) ≠ MarchResult.timeout := by
  intro n
  induction n with
  | zero =>
      intro t h0 hlt hbound
      exfalso
      simp only [Nat.cast_zero, zero_mul, add_zero] at hbound
      linarith
  | succ n ih =>
      intro t h0 hlt hbound
      simp only [marchLoop]
      by_cases hgt : sdf.distance (origin.add t dhat) > sdf.epsilon
      · rw [if_pos hgt, add_add_scaled]
        by_cases hfar :
            (origin.add (t + sdf.distance (origin.add t dhat)) dhat).dist2 origin
              ≥ farPlane * farPlane
        · rw [if_pos hfar]
          exact fun hcontr => MarchResult.noConfusion hcontr
        · rw [if_neg hfar]
          have hd2 := dist2_add_scaled origin dhat
            (t + sdf.distance (origin.add t dhat)) hunit
          rw [hd2] at hfar
          have hsum0 : 0 ≤ t + sdf.distance (origin.add t dhat) := by linarith
          have hfarpos : 0 ≤ farPlane := by linarith
          have hlt2 : t + sdf.distance (origin.add t dhat) < farPlane := by
            by_contra hge
            push_neg at hge
            exact absurd (lt_of_not_ge hfar)
              (not_lt.mpr (mul_le_mul hge hge hfarpos hsum0))
          apply ih
          · linarith
          · exact hlt2
          · push_cast at hbound ⊢
            linarith
      · rw [if_neg hgt]
        exact fun hcontr => MarchResult.noConfusion hcontr

/-- C2: with positive epsilon, a nonzero direction and a positive far plane,
the raymarch loop reaches a hit or a miss within ceil(farPlane/epsilon) + 1
iterations: every iteration steps more than epsilon along the normalized
direction, so the far-plane test bounds the loop even though the source has
no iteration cap. -/
theorem raymarch_terminates (sdf : SDFData) (ray : Ray) (farPlane : ℝ)
    (hε : 0 < sdf.epsilon) (hdir : ray.direction ≠ Vec3.zero) (hfar : 0 < farPlane) :
    marchLoop sdf ray.origin ray.direction.normalize farPlane
      (marchFuel sdf farPlane) ray.origin ≠ MarchResult.timeout := by
  have hunit : (ray.direction.normalize).norm2 = 1 :=
    Vec3.norm2_normalize _ (Vec3.norm2_ne_zero _ hdir)
  have h0 : ray.origin.add 0 ray.direction.normalize = ray.origin := by
    simp only [Vec3.add, zero_mul, add_zero]
  have hbound : farPlane < 0 + (marchFuel sdf farPlane : ℝ) * sdf.epsilon := by
    unfold marchFuel
    have hceil : farPlane / sdf.epsilon ≤ (Nat.ceil (farPlane / sdf.epsilon) : ℝ) :=
      Nat.le_ceil _
    have h3 : (farPlane / sdf.epsilon) * sdf.epsilon
        ≤ (Nat.ceil (farPlane / sdf.epsilon) : ℝ) * sdf.epsilon :=
      mul_le_mul_of_nonneg_right hceil (le_of_lt hε)
    rw [div_mul_cancel₀ _ (ne_of_gt hε)] at h3
    push_cast
    linarith
  have hmain := marchLoop_no_timeout sdf ray.origin ray.direction.normalize farPlane
    hε hunit (marchFuel sdf farPlane) 0 le_rfl hfar hbound
  rw [h0] at hmain
  exact hmain

/-- C1: whenever raymarch returns a hit, the recorded distance is the
distance field at the hit point and is at most epsilon, the recorded normal
is the dispatched normal at the hit point, and the recorded material is the
dispatched material at the hit point defaulted to Material::new. -/
theorem raymarch_hit_postconditions (sdf : SDFData) (ray : Ray) (farPlane : ℝ)
    (hε : 0 < sdf.epsilon) (hdir : ray.direction ≠ Vec3.zero) (hit : RayHit)
    (h : sdf.raymarch ray farPlane = some hit) :
    hit.distance = sdf.distance hit.point ∧ hit.distance ≤ sdf.epsilon ∧
      hit.normal = sdf.normal hit.point ∧
      hit.material = (sdf.material hit.point).getD Material.new := by
  unfold SDFData.raymarch at h
  cases hm : marchLoop sdf ray.origin ray.direction.normalize farPlane
      (marchFuel sdf farPlane) ray.origin with
  | timeout => rw [hm] at h; exact Option.noConfusion h
  | miss => rw [hm] at h; exact Option.noConfusion h
  | hit q =>
      rw [hm] at h
      have hq := marchLoop_hit_le_epsilon sdf ray.origin ray.direction.normalize
        farPlane (marchFuel sdf farPlane) ray.origin q hm
      injection h with h2
      subst h2
      exact ⟨rfl, hq, rfl, rfl⟩

/-- C9: whenever raymarch returns a hit with a positive far plane, the hit
point lies strictly inside the far-plane ball around the ray origin (in
squared distance). -/
theorem raymarch_hit_before_far_plane (sdf : SDFData) (ray : Ray) (farPlane : ℝ)
    (hfar : 0 < farPlane) (hit : RayHit)
    (h : sdf.raymarch ray farPlane = some hit) :
    hit.point.dist2 ray.origin < farPlane * farPlane := by
  unfold SDFData.raymarch at h
  cases hm : marchLoop sdf ray.origin ray.direction.normalize farPlane
      (marchFuel sdf farPlane) ray.origin with
  | timeout => rw [hm] at h; exact Option.noConfusion h
  | miss => rw [hm] at h; exact Option.noConfusion h
  | hit q =>
      rw [hm] at h
      have h00 : ray.origin.dist2 ray.origin = 0 := by simp [Vec3.dist2]
      have hq := marchLoop_hit_dist2 sdf ray.origin ray.direction.normalize
        farPlane (marchFuel sdf farPlane) ray.origin q
        (by rw [h00]; exact mul_pos hfar hfar) hm
      injection h with h2
      subst h2
      exact hq

noncomputable def wSdf : SDFData := mkPlane ⟨1, 0, 0⟩

def wRay : Ray := ⟨Vec3.zero, ⟨0, 0, 1⟩⟩

noncomputable def wHit : RayHit :=
  ⟨wRay, Vec3.zero, wSdf.distance Vec3.zero, wSdf.normal Vec3.zero,
    (wSdf.material Vec3.zero).getD Material.new⟩

lemma wEps_pos : 0 < wSdf.epsilon := by norm_num [wSdf, mkPlane, mkSDF]

lemma wDir_ne : wRay.direction ≠ Vec3.zero := by
  intro h
  have hz := congrArg Vec3.z h
  norm_num [wRay, Vec3.zero] at hz

lemma wSdf_raymarch_eval : wSdf.raymarch wRay 10 = some wHit := by
  have hc : ¬(wSdf.distance wRay.origin > wSdf.epsilon) := by
    norm_num [wSdf, mkPlane, mkSDF, Vec3.dot, wRay, Vec3.zero]
  have hloop : marchLoop wSdf wRay.origin wRay.direction.normalize 10
      (marchFuel wSdf 10) wRay.origin = MarchResult.hit Vec3.zero := by
    simp only [marchFuel, marchLoop]
    rw [if_neg hc]
    rfl
  unfold SDFData.raymarch
  rw [hloop]
  rfl

/-- Witness for C2 at a plane SDF and an axis ray. -/
theorem raymarch_terminates_witness :
    0 < wSdf.epsilon ∧ wRay.direction ≠ Vec3.zero ∧ (0 : ℝ) < 10 ∧
      marchLoop wSdf wRay.origin wRay.direction.normalize 10
        (marchFuel wSdf 10) wRay.origin ≠ MarchResult.timeout :=
  ⟨wEps_pos, wDir_ne, by norm_num,
    raymarch_terminates wSdf wRay 10 wEps_pos wDir_ne (by norm_num)⟩

/-- Witness for C1: the plane SDF hits at the ray origin and the returned
record satisfies all four postconditions. -/
theorem raymarch_hit_postconditions_witness :
    0 < wSdf.epsilon ∧ wRay.direction ≠ Vec3.zero ∧
      wSdf.raymarch wRay 10 = some wHit ∧
      (wHit.distance = wSdf.distance wHit.point ∧ wHit.distance ≤ wSdf.epsilon ∧
        wHit.normal = wSdf.normal wHit.point ∧
        wHit.material = (wSdf.material wHit.point).getD Material.new) :=
  ⟨wEps_pos, wDir_ne, wSdf_raymarch_eval,
    raymarch_hit_postconditions wSdf wRay 10 wEps_pos wDir_ne wHit wSdf_raymarch_eval⟩

/-- Witness for C9 at the same concrete hit. -/
theorem raymarch_hit_before_far_plane_witness :
    (0 : ℝ) < 10 ∧ wSdf.raymarch wRay 10 = some wHit ∧
      wHit.point.dist2 wRay.origin < 10 * 10 :=
  ⟨by norm_num, wSdf_raymarch_eval,
    raymarch_hit_before_far_plane wSdf wRay 10 (by norm_num) wHit wSdf_raymarch_eval⟩

noncomputable def cexA : SDFData := mkPlane ⟨1, 0, 0⟩

noncomputable def cexB : SDFData := mkPlane ⟨0, 1, 0⟩

noncomputable def cexP : Vec3 := ⟨-(1 / 2000), 0, 0⟩

/-- Counterexample to C3 as stated: for the union of the plane with normal
(1,0,0) and the plane with normal (0,1,0), at the point (-1/2000, 0, 0) the
first child is strictly closer, yet the union normal (the default central
difference of the min field, whose stencil straddles both children) differs
from the first child normal. -/
theorem union_normal_counterexample :
    cexA.distance cexP < cexB.distance cexP ∧
      (mkUnion cexA cexB).normal cexP ≠ cexA.normal cexP := by
  constructor
  · norm_num [cexA, cexB, cexP, mkPlane, mkSDF, Vec3.dot]
  · have hg : (mkUnion cexA cexB).normal cexP
        = Vec3.normalize ⟨3 / 2000, 1 / 2000, 0⟩ := by
      norm_num [mkUnion, defaultNormal, cexA, cexB, cexP, mkPlane, mkSDF,
        Vec3.dot, Vec3.add, Vec3.scale, Vec3.right, Vec3.left, Vec3.up,
        Vec3.down, Vec3.forward, Vec3.backward, min_def]
    have ha : cexA.normal cexP = Vec3.normalize ⟨1 / 500, 0, 0⟩ := by
      norm_num [cexA, cexP, mkPlane, mkSDF, defaultNormal, Vec3.dot, Vec3.add,
        Vec3.scale, Vec3.right, Vec3.left, Vec3.up, Vec3.down, Vec3.forward,
        Vec3.backward]
    intro heq
    rw [hg, ha] at heq
    have h1 : (Vec3.mk (3 / 2000) (1 / 2000) 0).norm2 = 1 / 400000 := by
      norm_num [Vec3.norm2, Vec3.dot]
    have h2 : (Vec3.mk (1 / 500) 0 0).norm2 = 1 / 250000 := by
      norm_num [Vec3.norm2, Vec3.dot]
    unfold Vec3.normalize at heq
    rw [h1, h2] at heq
    rw [if_neg (by norm_num : (1 / 400000 : ℝ) ≠ 0),
      if_neg (by norm_num : (1 / 250000 : ℝ) ≠ 0)] at heq
    have hy := congrArg Vec3.y heq
    simp only [zero_div] at hy
    have hsp : 0 < Real.sqrt (1 / 400000 : ℝ) := Real.sqrt_pos.mpr (by norm_num)
    exact div_ne_zero (by norm_num) (ne_of_gt hsp) hy

/-- C3 amended: the normal of Union(a, b) is the trait default central
difference normal of the combined field: the normalized vector of
differences of min(da, db) evaluated at offsets of min(epsa, epsb) along
each coordinate axis; it is not in general the normal of the closer child
(see the counterexample). -/
theorem union_normal_default_gradient (a b : SDFData) (p : Vec3) :
    (mkUnion a b).normal p =
      Vec3.normalize
        ⟨min (a.distance ((Vec3.right.scale (min a.epsilon b.epsilon)).add 1 p))
            (b.distance ((Vec3.right.scale (min a.epsilon b.epsilon)).add 1 p))
          - min (a.distance ((Vec3.left.scale (min a.epsilon b.epsilon)).add 1 p))
            (b.distance ((Vec3.left.scale (min a.epsilon b.epsilon)).add 1 p)),
        min (a.distance ((Vec3.up.scale (min a.epsilon b.epsilon)).add 1 p))
            (b.distance ((Vec3.up.scale (min a.epsilon b.epsilon)).add 1 p))
          - min (a.distance ((Vec3.down.scale (min a.epsilon b.epsilon)).add 1 p))
            (b.distance ((Vec3.down.scale (min a.epsilon b.epsilon)).add 1 p)),
        min (a.distance ((Vec3.forward.scale (min a.epsilon b.epsilon)).add 1 p))
            (b.distance ((Vec3.forward.scale (min a.epsilon b.epsilon)).add 1 p))
          - min (a.distance ((Vec3.backward.scale (min a.epsilon b.epsilon)).add 1 p))
            (b.distance ((Vec3.backward.scale (min a.epsilon b.epsilon)).add 1 p))⟩ :=
  rfl

/-- C8: the perspective projection returns the ray from the eye origin
through the image of the local point under the spec near-plane frame,
normalized: the code half-axis 2 * tan(fov/2) * near / 2 equals the spec
half-axis tan(fov/2) * near. -/
theorem persp_project_canonical (pv : PerspView) (lp : Vec3) :
    ViewTransform.project (ViewTransform.persp pv) lp =
      Ray.mk pv.eye_frame.origin
        (((specNearPlaneFrame pv).project_point lp).sub pv.eye_frame.origin).normalize := by
  have h : 2 * Real.tan (pv.fov_degrees * Real.pi / 180 / 2) * pv.near / 2
      = Real.tan (pv.fov_degrees * Real.pi / 180 / 2) * pv.near := by ring
  simp only [ViewTransform.project, specNearPlaneFrame]
  rw [h]

end Gwendr
